import Mathlib

/-!
Shallow embedding of the `pyaiblocker` Isolation engine
(`src/board.py` and `src/ai.py`) and verification of the frozen claims.

Modelling conventions:
* Python unbounded `int` is `Int`; coordinates, row/column counts, and scores
  are `Int`.  Cell states are `Nat` bit masks exactly as in the source.
* The two player identifiers are the integers `1` and `2` as in the source;
  a "winner" value is a `Nat` where `0` models Python's `False` (in Python,
  `bool` is a subtype of `int` and `False == 0`, and `is_game_over` returns
  either `False` or a player identifier; the truthiness test `if winner:`
  is exactly `winner ≠ 0`).
* A player position is `Option (Int × Int)`, `none` modelling Python `None`
  (the position dictionary before a player's first move).  The tuple
  truthiness test `if not loc:` in `get_legal_moves` is exactly
  `loc = none`, because a 2-tuple is always truthy in Python.
* List indexing uses `List.set` / `List.getD`; every index reached by the
  operations the claims quantify over is in range, where the model agrees
  with Python exactly.
* The `while` loop of `get_legal_moves` is modelled by a fuel-indexed
  recursion; fuel `rows + columns + 2` strictly exceeds the number of
  iterations the Python loop can perform (each iteration moves one step in a
  fixed nonzero direction, and after at most one step the walker is inside
  the `columns × rows` box, which it then leaves after at most
  `max rows columns` further steps), so the model computes the loop's exact
  result.
-/

set_option maxHeartbeats 1000000

/-- Board state, `src/board.py` class `Board`.  The private position
dictionary `__players_position` (whose only keys are `PLAYER1` and
`PLAYER2`) is modelled by the two fields `pos1` and `pos2`. -/
structure Board where
  rows : Int
  columns : Int
  board : List Nat
  active_player : Nat
  inactive_player : Nat
  pos1 : Option (Int × Int)
  pos2 : Option (Int × Int)
deriving DecidableEq, Repr

namespace Board

/-- `Board.PLAYER1` -/
def PLAYER1 : Nat := 1

/-- `Board.PLAYER2` -/
def PLAYER2 : Nat := 2

/-- `Board.BOX_CLEAR` -/
def BOX_CLEAR : Nat := 4

/-- `Board.BOX_BLOCK` -/
def BOX_BLOCK : Nat := 8

/-- `Board.BOX_BLOCKED_MASK` -/
def BOX_BLOCKED_MASK : Nat := 16

/-- `Board.__init__(rows, columns)` followed by the `clear_board` call it
performs: the cell list is `[BOX_CLEAR for _ in range(rows * columns)]`
(`range n` is empty for `n ≤ 0`, hence the `Int.toNat`), player 1 active,
no player positioned.  The source constructor contains no validation and no
failure path: it is a total function of `rows` and `columns`. -/
def init (rows columns : Int) : Board :=
  { rows := rows
    columns := columns
    board := List.replicate (rows * columns).toNat BOX_CLEAR
    active_player := PLAYER1
    inactive_player := PLAYER2
    pos1 := none
    pos2 := none }

/-- `__players_position[player]` for the two keys the dictionary holds. -/
def players_position (b : Board) (player : Nat) : Option (Int × Int) :=
  if player = PLAYER1 then b.pos1
  else if player = PLAYER2 then b.pos2
  else none

/-- `Board.offset(x, y) = x + y * columns`: the flat index of coordinate
`(x, y)`, computed without any bounds validation (claim C10). -/
def offset (b : Board) (x y : Int) : Int :=
  x + y * b.columns

/-- `Board.box_blocked(x, y)`: test the blocked mask bit of the cell at flat
index `offset x y`.  Python raises for an index outside `[-len, len)`; the
claims only exercise in-range indices, where `List.getD` agrees exactly. -/
def box_blocked (b : Board) (x y : Int) : Bool :=
  (b.board.getD (b.offset x y).toNat 0) &&& BOX_BLOCKED_MASK == BOX_BLOCKED_MASK

/-- `Board.get_free_boxes()`: all `(x, y)` with `y ∈ range rows`,
`x ∈ range columns` (in that loop order) whose cell is not blocked. -/
def get_free_boxes (b : Board) : List (Int × Int) :=
  (List.range b.rows.toNat).flatMap fun (y : Nat) =>
    (List.range b.columns.toNat).filterMap fun (x : Nat) =>
      if b.box_blocked (x : Int) (y : Int) then none else some ((x : Int), (y : Int))

/-- The `dirs_deltas` list of `get_legal_moves`, in source order. -/
def dirs_deltas : List (Int × Int) :=
  [(-1, -1), (0, -1), (1, -1), (1, 0), (1, 1), (0, 1), (-1, 1), (-1, 0)]

/-- One directional `while` loop of `get_legal_moves`: starting at `(x, y)`,
step by `(dx, dy)` while the next cell is inside the grid; stop (excluding
the cell) at the first blocked cell.  `fuel` bounds the number of
iterations; every call below supplies fuel strictly larger than the number
of iterations the Python loop performs. -/
def ray (b : Board) : Int → Int → Int → Int → Nat → List (Int × Int)
  | _, _, _, _, 0 => []
  | x, y, dx, dy, fuel + 1 =>
    if 0 ≤ x + dx ∧ x + dx < b.columns ∧ 0 ≤ y + dy ∧ y + dy < b.rows then
      if b.box_blocked (x + dx) (y + dy) then []
      else (x + dx, y + dy) :: ray b (x + dx) (y + dy) dx dy fuel
    else []

/-- Fuel supplied to `ray`; strictly exceeds any possible iteration count of
the Python `while` loop (see the header comment). -/
def fuel (b : Board) : Nat :=
  b.rows.toNat + b.columns.toNat + 2

/-- `Board.get_legal_moves(player=None)`: if the chosen player has no
recorded position, every free box; otherwise the concatenation of the eight
directional rays from its position, in `dirs_deltas` order. -/
def get_legal_moves (b : Board) (player : Option Nat) : List (Int × Int) :=
  let loc := match player with
    | none => b.players_position b.active_player
    | some p => b.players_position p
  match loc with
  | none => b.get_free_boxes
  | some (x, y) => dirs_deltas.flatMap fun d => b.ray x y d.1 d.2 b.fuel

/-- `__players_position[self.__active_player] = (x, y)`: record the active
player's new position (the dictionary's only keys are the two players). -/
def set_position (b : Board) (player : Nat) (xy : Int × Int) : Board :=
  if player = PLAYER1 then { b with pos1 := some xy }
  else if player = PLAYER2 then { b with pos2 := some xy }
  else b

/-- `Board.make_move(x, y)`: record the destination as the active player's
position, block the destination cell (`__block_box` writes
`board_state ||| BOX_BLOCKED_MASK`), and swap the active/inactive
identifiers.  The source's `assert not self.box_blocked(x, y)` is carried as
a hypothesis by the theorems whose claims assume it. -/
def make_move (b : Board) (x y : Int) : Board :=
  let b1 := b.set_position b.active_player (x, y)
  let b2 := { b1 with
    board := b1.board.set (b1.offset x y).toNat
      (b1.active_player ||| BOX_BLOCKED_MASK) }
  if b2.active_player = PLAYER1 then
    { b2 with active_player := PLAYER2, inactive_player := PLAYER1 }
  else
    { b2 with active_player := PLAYER1, inactive_player := PLAYER2 }

/-- The `pickle.loads(pickle.dumps(self, ...))` deep copy at the top of
`make_move_copy`: an independent object whose every field equals the
original's. -/
def clone (b : Board) : Board :=
  { rows := b.rows
    columns := b.columns
    board := b.board
    active_player := b.active_player
    inactive_player := b.inactive_player
    pos1 := b.pos1
    pos2 := b.pos2 }

/-- `Board.make_move_copy(x, y)`: deep-copy the board, then perform on the
copy the same three steps `make_move` performs (the source repeats the code
rather than calling `make_move`), returning the copy. -/
def make_move_copy (b : Board) (x y : Int) : Board :=
  let c := b.clone
  let c1 := c.set_position c.active_player (x, y)
  let c2 := { c1 with
    board := c1.board.set (c1.offset x y).toNat
      (c1.active_player ||| BOX_BLOCKED_MASK) }
  if c2.active_player = PLAYER1 then
    { c2 with active_player := PLAYER2, inactive_player := PLAYER1 }
  else
    { c2 with active_player := PLAYER1, inactive_player := PLAYER2 }

/-- `Board.is_game_over()`: the active player is tested first; an empty
legal-move list for it declares the inactive player the winner.  `0` models
the Python return value `False` (no winner). -/
def is_game_over (b : Board) : Nat :=
  if b.get_legal_moves (some b.active_player) = [] then b.inactive_player
  else if b.get_legal_moves (some b.inactive_player) = [] then b.active_player
  else 0

end Board

/-- Type of the pluggable scoring heuristics, `score_funcN(board, winner,
player)`: `winner` is the `is_game_over` result (`0` = Python `False`). -/
def ScoreFn : Type := Board → Nat → Nat → Int

namespace AI

/-- `AI.MAX_SCORE` -/
def MAX_SCORE : Int := 10000

/-- `AI.manhattan_distance(x1, y1, x2, y2)` -/
def manhattan_distance (x1 y1 x2 y2 : Int) : Int :=
  |x1 - x2| + |y1 - y2|

/-- Model of the source expression `int((1.0 / dist) * total)`: the exact
value `⌊total / dist⌋`.  The source computes with IEEE doubles, whose
rounding can differ from the exact quotient by a few units in the last
place, but for `0 ≤ total` and `1 ≤ dist` the double result, like this
model, always lies in `[0, total]`; the bound theorems below are therefore
stated for an arbitrary rounding function constrained to that interval, and
this exact model instantiates them. -/
def inv_scaled (total dist : Int) : Int :=
  total.fdiv dist

/-- `AI.inv_dist_to_centre(board, player)`, generic over the rounding
function `g` that models the double expression `int((1.0 / dist) * total)`.
`//` is Python floor division, i.e. `Int.fdiv`.  `board.player_pos(player)`
is unpacked by `*`, so the claims quantifying over this function assume the
player positioned; `player_pos_d` supplies the (irrelevant) default. -/
def inv_dist_to_centre_g (g : Int → Int → Int) (b : Board) (player : Nat) : Int :=
  let total := b.columns * b.rows
  let centre := (b.columns.fdiv 2, b.rows.fdiv 2)
  let pos := (b.players_position player).getD (0, 0)
  let dist := manhattan_distance pos.1 pos.2 centre.1 centre.2
  if dist ≤ 0 then total + 5 else g total dist

/-- `AI.inv_dist_to_centre` with the exact-division model of the double
expression. -/
def inv_dist_to_centre (b : Board) (player : Nat) : Int :=
  inv_dist_to_centre_g inv_scaled b player

/-- `AI.score_func1(board, winner, player)` generic over the double-rounding
model (see `inv_scaled`). -/
def score_func1_g (g : Int → Int → Int) : ScoreFn := fun b winner player =>
  if winner ≠ 0 then
    if winner = player then MAX_SCORE else -MAX_SCORE
  else
    inv_dist_to_centre_g g b b.active_player - inv_dist_to_centre_g g b b.inactive_player

/-- `AI.score_func1`: centrality differential. -/
def score_func1 : ScoreFn := score_func1_g inv_scaled

/-- `AI.score_func2`: mobility differential (pure integer arithmetic). -/
def score_func2 : ScoreFn := fun b winner player =>
  if winner ≠ 0 then
    if winner = player then MAX_SCORE else -MAX_SCORE
  else
    ((b.get_legal_moves (some b.active_player)).length : Int)
      - ((b.get_legal_moves (some b.inactive_player)).length : Int)

/-- `AI.score_func3`: flee heuristic, raw Manhattan distance between the two
players (pure integer arithmetic). -/
def score_func3 : ScoreFn := fun b winner player =>
  if winner ≠ 0 then
    if winner = player then MAX_SCORE else -MAX_SCORE
  else
    let pa := (b.players_position b.active_player).getD (0, 0)
    let po := (b.players_position b.inactive_player).getD (0, 0)
    manhattan_distance pa.1 pa.2 po.1 po.2

/-- `AI.score_func4(board, winner, player)` generic over the double-rounding
model (see `inv_scaled`). -/
def score_func4_g (g : Int → Int → Int) : ScoreFn := fun b winner player =>
  if winner ≠ 0 then
    if winner = player then MAX_SCORE else -MAX_SCORE
  else
    let total := b.columns * b.rows
    let pa := (b.players_position b.active_player).getD (0, 0)
    let po := (b.players_position b.inactive_player).getD (0, 0)
    let dist := manhattan_distance pa.1 pa.2 po.1 po.2
    if dist ≤ 0 then total + 5 else g total dist

/-- `AI.score_func4`: chase heuristic. -/
def score_func4 : ScoreFn := score_func4_g inv_scaled

/-- `AI.negamax(board, depth, player, score_func)`.  The source initialises
`best_score = float("-inf")`; whenever the move loop is reached the legal
move list is nonempty (`is_game_over` returned `False`, which requires the
active player to have a legal move — `negamax_moves_nonempty` below), so the
first iteration always replaces the initial value and the loop is modelled
by folding from the first move.  The `[]` and `0` fallback branches are
unreachable. -/
def negamax (board : Board) (depth : Nat) (player : Nat) (score_func : ScoreFn) :
    Int × Option (Int × Int) :=
  let player_sign : Int := if board.active_player = player then 1 else -1
  let winner := board.is_game_over
  if winner ≠ 0 ∨ depth = 0 then
    (player_sign * score_func board winner player, none)
  else
    match depth, board.get_legal_moves none with
    | _, [] => (0, none)
    | 0, _ :: _ => (0, none)
    | d + 1, m :: ms =>
      let first : Int × Option (Int × Int) :=
        (-(negamax (board.make_move_copy m.1 m.2) d player score_func).1, some m)
      ms.foldl (fun best move =>
        let current_score := -(negamax (board.make_move_copy move.1 move.2) d player score_func).1
        if current_score > best.1 then (current_score, some move) else best) first

/-- The move loop of `abnegamax`, for the moves after the first: thread
`alpha` through `max`, stop (`break`) as soon as `alpha ≥ beta`.  `eval`
evaluates a child at the flipped window. -/
def ab_loop (eval : Board → Int → Int → Int) (board : Board) :
    List (Int × Int) → Int → Int → Int × Option (Int × Int) → Int × Option (Int × Int)
  | [], _, _, best => best
  | move :: ms, alpha, beta, best =>
    let current_score := -(eval (board.make_move_copy move.1 move.2) (-beta) (-alpha))
    let best' := if current_score > best.1 then (current_score, some move) else best
    let alpha' := max alpha current_score
    if alpha' ≥ beta then best'
    else ab_loop eval board ms alpha' beta best'

/-- `AI.abnegamax(board, depth, player, alpha, beta, score_func)`: alpha-beta
negamax.  As in `negamax`, the `float("-inf")` initialisation is modelled by
evaluating the (always present) first move directly; the source checks the
cutoff `alpha ≥ beta` after every iteration, including the first, which is
preserved here. -/
def abnegamax (board : Board) (depth : Nat) (player : Nat) (alpha beta : Int)
    (score_func : ScoreFn) : Int × Option (Int × Int) :=
  let player_sign : Int := if board.active_player = player then 1 else -1
  let winner := board.is_game_over
  if winner ≠ 0 ∨ depth = 0 then
    (player_sign * score_func board winner player, none)
  else
    match depth, board.get_legal_moves none with
    | _, [] => (0, none)
    | 0, _ :: _ => (0, none)
    | d + 1, m :: ms =>
      let current_score :=
        -(abnegamax (board.make_move_copy m.1 m.2) d player (-beta) (-alpha) score_func).1
      let best := (current_score, some m)
      let alpha' := max alpha current_score
      if alpha' ≥ beta then best
      else ab_loop (fun b al bt => (abnegamax b d player al bt score_func).1)
        board ms alpha' beta best

/-- Instrumented version of `ab_loop`: additionally returns `true` iff the
cutoff condition `alpha ≥ beta` was reached at this node or inside any child
actually explored (the zero-pruning instrumentation the spec describes).
`eval` returns the child's score together with the child's cutoff flag. -/
def ab_loopI (eval : Board → Int → Int → Int × Bool) (board : Board) :
    List (Int × Int) → Int → Int → Int × Option (Int × Int) → Bool →
      Int × Option (Int × Int) × Bool
  | [], _, _, best, cut => (best.1, best.2, cut)
  | move :: ms, alpha, beta, best, cut =>
    let r := eval (board.make_move_copy move.1 move.2) (-beta) (-alpha)
    let current_score := -r.1
    let best' := if current_score > best.1 then (current_score, some move) else best
    let alpha' := max alpha current_score
    if alpha' ≥ beta then (best'.1, best'.2, true)
    else ab_loopI eval board ms alpha' beta best' (cut || r.2)

/-- Instrumented `abnegamax`: identical search, with a third component that
is `true` iff an alpha-beta cutoff (`alpha ≥ beta` after a move) triggered
anywhere in the explored tree.  `abnegamaxI_fst_snd` proves the first two
components coincide with `abnegamax`. -/
def abnegamaxI (board : Board) (depth : Nat) (player : Nat) (alpha beta : Int)
    (score_func : ScoreFn) : Int × Option (Int × Int) × Bool :=
  let player_sign : Int := if board.active_player = player then 1 else -1
  let winner := board.is_game_over
  if winner ≠ 0 ∨ depth = 0 then
    (player_sign * score_func board winner player, none, false)
  else
    match depth, board.get_legal_moves none with
    | _, [] => (0, none, false)
    | 0, _ :: _ => (0, none, false)
    | d + 1, m :: ms =>
      let r := abnegamaxI (board.make_move_copy m.1 m.2) d player (-beta) (-alpha) score_func
      let current_score := -r.1
      let best := (current_score, some m)
      let alpha' := max alpha current_score
      if alpha' ≥ beta then (best.1, best.2, true)
      else ab_loopI (fun b al bt =>
          let s := abnegamaxI b d player al bt score_func
          (s.1, s.2.2))
        board ms alpha' beta best r.2.2

/-- The retry loop of `power_abnegamax` over the descending depth list
`range(depth - 1, 0, -1)`: each iteration overwrites the running result
with the shallower search's result and `break`s as soon as the score
exceeds `-MAX_SCORE`; on exhaustion the running result (the last retried
depth's result) is returned. -/
def power_retry (board : Board) (player : Nat) (alpha beta : Int)
    (score_func : ScoreFn) : List Nat → Int × Option (Int × Int) → Int × Option (Int × Int)
  | [], r => r
  | d :: ds, _ =>
    let r' := abnegamax board d player alpha beta score_func
    if r'.1 > -MAX_SCORE then r'
    else power_retry board player alpha beta score_func ds r'

/-- `range(n, 0, -1) = [n, n-1, ..., 1]`. -/
def down_from : Nat → List Nat
  | 0 => []
  | n + 1 => (n + 1) :: down_from n

/-- `AI.power_abnegamax(board, depth, player, alpha, beta, score_func)`. -/
def power_abnegamax (board : Board) (depth : Nat) (player : Nat) (alpha beta : Int)
    (score_func : ScoreFn) : Int × Option (Int × Int) :=
  let r := abnegamax board depth player alpha beta score_func
  if r.1 ≤ -MAX_SCORE then
    power_retry board player alpha beta score_func (down_from (depth - 1)) r
  else r

/-- Declarative description of what `power_abnegamax` computes, written from
the amended claim: run alpha-beta negamax at the requested depth; if its
score is `≤ -MAX_SCORE`, return the result of the first depth among
`depth-1, depth-2, …, 1` whose score is strictly greater than `-MAX_SCORE`;
if no retried depth qualifies, return the result of the *last retried
depth*, namely depth `1` (so the original depth's result is returned only
when `depth ≤ 1` and the retry list is empty). -/
def power_described (board : Board) (depth : Nat) (player : Nat) (alpha beta : Int)
    (score_func : ScoreFn) : Int × Option (Int × Int) :=
  let r := abnegamax board depth player alpha beta score_func
  if r.1 ≤ -MAX_SCORE then
    match (down_from (depth - 1)).find?
        (fun d => (abnegamax board d player alpha beta score_func).1 > -MAX_SCORE) with
    | some d => abnegamax board d player alpha beta score_func
    | none =>
      if 2 ≤ depth then abnegamax board 1 player alpha beta score_func else r
  else r

end AI

/-! ## Shared lemmas -/

/-- Every cell a directional ray emits was checked to be unblocked. -/
theorem ray_not_blocked (b : Board) :
    ∀ (fuel : Nat) (x y dx dy : Int), ∀ m ∈ b.ray x y dx dy fuel,
      b.box_blocked m.1 m.2 = false := by
  intro fuel
  induction fuel with
  | zero => intro x y dx dy m hm; simp [Board.ray] at hm
  | succ n ih =>
    intro x y dx dy m hm
    simp only [Board.ray] at hm
    split at hm
    · split at hm
      · simp at hm
      · rcases List.mem_cons.mp hm with h | h
        · subst h
          simpa using Bool.not_eq_true _ |>.mp (by assumption)
        · exact ih _ _ _ _ m h
    · simp at hm

/-- Every cell `get_free_boxes` emits was checked to be unblocked. -/
theorem free_boxes_not_blocked (b : Board) :
    ∀ m ∈ b.get_free_boxes, b.box_blocked m.1 m.2 = false := by
  intro m hm
  simp only [Board.get_free_boxes, List.mem_flatMap, List.mem_filterMap,
    List.mem_range] at hm
  obtain ⟨y, -, x, -, hx⟩ := hm
  split at hx
  · simp at hx
  · obtain rfl := Option.some_injective _ hx
    simpa using Bool.not_eq_true _ |>.mp (by assumption)

/-- Every legal move is an unblocked cell (both the placement branch and the
ray branch of `get_legal_moves`). -/
theorem legal_moves_not_blocked (b : Board) (player : Option Nat) :
    ∀ m ∈ b.get_legal_moves player, b.box_blocked m.1 m.2 = false := by
  intro m hm
  simp only [Board.get_legal_moves] at hm
  rcases hloc : (match player with
    | none => b.players_position b.active_player
    | some p => b.players_position p) with - | ⟨x, y⟩ <;> rw [hloc] at hm
  · exact free_boxes_not_blocked b m hm
  · simp only [List.mem_flatMap] at hm
    obtain ⟨d, -, hd⟩ := hm
    exact ray_not_blocked b _ x y d.1 d.2 m hd

/-! ## C1 -/

/-- `[n, n-1, ..., 1]` always ends in `1`. -/
theorem down_from_getLast (n : Nat) : (AI.down_from (n + 1)).getLast? = some 1 := by
  induction n with
  | zero => rfl
  | succ k ih =>
    rw [show AI.down_from (k + 1 + 1) = (k + 2) :: AI.down_from (k + 1) from rfl]
    rw [show AI.down_from (k + 1) = (k + 1) :: AI.down_from k from rfl] at ih ⊢
    rw [List.getLast?_cons_cons]
    exact ih

/-- What the retry loop computes: the result at the first depth in `ds`
whose score beats `-MAX_SCORE`; failing that, the result at the *last*
element of `ds` (the loop variable is overwritten each iteration); only for
an empty `ds` the incoming result survives. -/
theorem power_retry_spec (board : Board) (player : Nat) (alpha beta : Int)
    (f : ScoreFn) :
    ∀ (ds : List Nat) (r : Int × Option (Int × Int)),
      AI.power_retry board player alpha beta f ds r
        = match ds.find?
            (fun d => (AI.abnegamax board d player alpha beta f).1 > -AI.MAX_SCORE) with
          | some d => AI.abnegamax board d player alpha beta f
          | none =>
            match ds.getLast? with
            | none => r
            | some d => AI.abnegamax board d player alpha beta f := by
  intro ds
  induction ds with
  | nil => intro r; rfl
  | cons d t ih =>
    intro r
    simp only [AI.power_retry, List.find?_cons]
    by_cases hd : (AI.abnegamax board d player alpha beta f).1 > -AI.MAX_SCORE
    · rw [if_pos hd, decide_eq_true hd]
    · rw [if_neg hd, decide_eq_false hd]
      simp only []
      rw [ih]
      rcases hf : t.find?
          (fun d => (AI.abnegamax board d player alpha beta f).1 > -AI.MAX_SCORE)
        with - | e
      · rcases t with - | ⟨x, xs⟩
        · rfl
        · rcases hl : (x :: xs).getLast? with - | y
          · simp at hl
          · rw [List.getLast?_cons_cons, hl]
      · rfl

/-- Counterexample to C1 as stated: on the 1×2 board with the heuristic
`cexScore` below, depth-2 alpha-beta search scores `-10000 ≤ -MAX_SCORE`
with move `(0,0)`; the only retried depth, `1`, also scores
`≤ -MAX_SCORE' (`-19999`, move `(1,0)`); the claim then demands the
original depth's result `(-10000, (0,0))`, but `power_abnegamax` returns
the depth-1 retry's result `(-19999, (1,0))` — the loop variable holding
the last retry is what the source returns. -/
def cexScore : ScoreFn := fun b w _ =>
  if w ≠ 0 then -10000 else if b.pos1 = some (0, 0) then -20000 else -19999

/-- The concrete refutation of C1's fallback clause (see `cexScore`). -/
theorem claim_C1_counterexample :
    AI.abnegamax (Board.init 1 2) 2 1 (-1000000) 1000000 cexScore
        = (-10000, some (0, 0)) ∧
    AI.abnegamax (Board.init 1 2) 1 1 (-1000000) 1000000 cexScore
        = (-19999, some (1, 0)) ∧
    ((-10000 : Int) ≤ -AI.MAX_SCORE) ∧
    ¬ ((-19999 : Int) > -AI.MAX_SCORE) ∧
    AI.power_abnegamax (Board.init 1 2) 2 1 (-1000000) 1000000 cexScore
        = (-19999, some (1, 0)) ∧
    AI.power_abnegamax (Board.init 1 2) 2 1 (-1000000) 1000000 cexScore
        ≠ AI.abnegamax (Board.init 1 2) 2 1 (-1000000) 1000000 cexScore := by
  refine ⟨by decide, by decide, by decide, by decide, by decide, by decide⟩

/-- C1 amended: `power_abnegamax` first runs alpha-beta negamax at the
requested depth and returns that result when its score exceeds
`-MAX_SCORE`; otherwise it returns the result of the first depth among
`depth-1, …, 1` whose score is strictly greater than `-MAX_SCORE`; if no
retried depth qualifies, it returns the result of the *last retried depth*
(depth 1) — not the original depth's result, which is returned only when
`depth ≤ 1` leaves the retry list empty.  `power_described` is this
description verbatim. -/
theorem claim_C1_power_abnegamax_described (board : Board) (depth : Nat)
    (player : Nat) (alpha beta : Int) (f : ScoreFn) :
    AI.power_abnegamax board depth player alpha beta f
      = AI.power_described board depth player alpha beta f := by
  unfold AI.power_abnegamax AI.power_described
  by_cases hr : (AI.abnegamax board depth player alpha beta f).1 ≤ -AI.MAX_SCORE
  · rw [if_pos hr, if_pos hr]
    rw [power_retry_spec board player alpha beta f (AI.down_from (depth - 1))]
    rcases hf : (AI.down_from (depth - 1)).find?
        (fun d => (AI.abnegamax board d player alpha beta f).1 > -AI.MAX_SCORE)
      with - | e
    · simp only []
      match depth with
      | 0 => rfl
      | 1 => rfl
      | n + 2 =>
        rw [show n + 2 - 1 = n + 1 from rfl, down_from_getLast n]
        rw [if_pos (by omega : 2 ≤ n + 2)]
    · rfl
  · rw [if_neg hr, if_neg hr]

/-! ## C7 -/

/-- C7: for every board and every player argument (the default
active-player form `none` or an explicit player, positioned or not), no
coordinate returned by `get_legal_moves` satisfies `box_blocked`: the
placement branch emits only free cells and each ray stops at — and
excludes — the first blocked cell. -/
theorem claim_C7_legal_moves_never_blocked (b : Board) (player : Option Nat)
    (m : Int × Int) (hm : m ∈ b.get_legal_moves player) :
    b.box_blocked m.1 m.2 = false :=
  legal_moves_not_blocked b player m hm

/-- Witness for C7 on a concrete board: the post-move 3×3 position from the
source's own `main()` trace, active player explicitly passed. -/
theorem claim_C7_witness :
    ((1, 2) ∈ ((Board.init 3 3).make_move 1 1).get_legal_moves (some 2)) ∧
      (((Board.init 3 3).make_move 1 1).box_blocked 1 2 = false) :=
  ⟨by decide, claim_C7_legal_moves_never_blocked _ (some 2) (1, 2) (by decide)⟩

/-! ## C6 -/

/-- C6: `is_game_over` checks the active player first: an active player
with no legal moves makes the inactive player the winner — with no
condition at all on the inactive player's moves, so this holds in
particular when the inactive player is also immobilised; the active player
is returned only when it has a legal move and the inactive player has none;
otherwise the no-winner sentinel (`0`, modelling Python `False`) results. -/
theorem claim_C6_game_over_active_first (b : Board) :
    (b.get_legal_moves (some b.active_player) = [] →
      b.is_game_over = b.inactive_player) ∧
    (b.get_legal_moves (some b.active_player) ≠ [] →
      b.get_legal_moves (some b.inactive_player) = [] →
      b.is_game_over = b.active_player) ∧
    (b.get_legal_moves (some b.active_player) ≠ [] →
      b.get_legal_moves (some b.inactive_player) ≠ [] →
      b.is_game_over = 0) := by
  refine ⟨fun h => ?_, fun h1 h2 => ?_, fun h1 h2 => ?_⟩
  · simp [Board.is_game_over, h]
  · simp [Board.is_game_over, h1, h2]
  · simp [Board.is_game_over, h1, h2]

/-- Witness for C6: a 2×1 board where, after the two opening moves, both
players are simultaneously immobilised; the inactive player (player 2) is
declared the winner, exercising the active-player-first precedence. -/
theorem claim_C6_witness :
    ((((Board.init 2 1).make_move 0 0).make_move 0 1).get_legal_moves
        (some (((Board.init 2 1).make_move 0 0).make_move 0 1).active_player) = []) ∧
    ((((Board.init 2 1).make_move 0 0).make_move 0 1).get_legal_moves
        (some (((Board.init 2 1).make_move 0 0).make_move 0 1).inactive_player) = []) ∧
    (((Board.init 2 1).make_move 0 0).make_move 0 1).is_game_over
        = (((Board.init 2 1).make_move 0 0).make_move 0 1).inactive_player :=
  ⟨by decide, by decide,
    (claim_C6_game_over_active_first _).1 (by decide)⟩

/-! ## C5 -/

/-- C5: for every legal move, `make_move_copy` operates on an equal clone
and returns exactly the board `make_move` produces from that clone; the
destination cell moreover passes both functions' `assert not box_blocked`
precondition.  The embedding is pure (boards are immutable values passed
explicitly), so the original board value is by construction not modified by
`make_move_copy` — the deep-copy clause of the claim is expressed by the
clone being equal to, yet used in place of, the original. -/
theorem claim_C5_make_move_copy (b : Board) (x y : Int)
    (hm : (x, y) ∈ b.get_legal_moves none) :
    b.box_blocked x y = false ∧ b.clone = b ∧
      b.make_move_copy x y = b.clone.make_move x y := by
  refine ⟨legal_moves_not_blocked b none (x, y) hm, rfl, rfl⟩

/-- Witness for C5 at a concrete board and move. -/
theorem claim_C5_witness :
    ((1, 1) ∈ (Board.init 3 3).get_legal_moves none) ∧
      ((Board.init 3 3).box_blocked 1 1 = false ∧
        (Board.init 3 3).clone = Board.init 3 3 ∧
        (Board.init 3 3).make_move_copy 1 1
          = (Board.init 3 3).clone.make_move 1 1) :=
  ⟨by decide, claim_C5_make_move_copy (Board.init 3 3) 1 1 (by decide)⟩

/-! ## C9 -/

/-- Counterexample to C9 as stated: the source constructor contains no
dimension validation and no failure path whatsoever, so constructing a
board with non-positive dimensions raises nothing — `Board(0, 5)` yields a
well-defined, usable board object with an empty cell list whose queries
answer normally (empty move lists). -/
theorem claim_C9_counterexample :
    Board.init 0 5
        = { rows := 0, columns := 5, board := [], active_player := 1,
            inactive_player := 2, pos1 := none, pos2 := none } ∧
      (Board.init 0 5).get_free_boxes = [] ∧
      (Board.init 0 5).get_legal_moves none = [] ∧
      (Board.init 0 5).is_game_over = 2 := by
  refine ⟨by decide, by decide, by decide, by decide⟩

/-- C9 amended: constructing a `Board` with non-positive `rows` or
`columns` raises no fault; the constructor is total and yields a degenerate
board carrying the requested dimensions, with `max (rows*columns) 0` cells,
and all free-box / legal-move queries on it return the empty list. -/
theorem claim_C9_nonpositive_dims_no_fault (rows columns : Int)
    (h : rows ≤ 0 ∨ columns ≤ 0) :
    (Board.init rows columns).rows = rows ∧
    (Board.init rows columns).columns = columns ∧
    (Board.init rows columns).board
        = List.replicate (rows * columns).toNat Board.BOX_CLEAR ∧
    (Board.init rows columns).get_free_boxes = [] ∧
    (Board.init rows columns).get_legal_moves none = [] := by
  have hfree : (Board.init rows columns).get_free_boxes = [] := by
    rcases h with h | h
    · have : rows.toNat = 0 := Int.toNat_of_nonpos h
      simp [Board.get_free_boxes, Board.init, this]
    · have : columns.toNat = 0 := Int.toNat_of_nonpos h
      simp [Board.get_free_boxes, Board.init, this]
  refine ⟨rfl, rfl, rfl, hfree, ?_⟩
  simpa [Board.get_legal_moves, Board.init, Board.players_position,
    Board.PLAYER1] using hfree

/-- Witness for C9's amended theorem at `rows = 0, columns = 5`. -/
theorem claim_C9_witness :
    ((0 : Int) ≤ 0 ∨ (5 : Int) ≤ 0) ∧
      ((Board.init 0 5).rows = 0 ∧
       (Board.init 0 5).columns = 5 ∧
       (Board.init 0 5).board
           = List.replicate ((0 : Int) * 5).toNat Board.BOX_CLEAR ∧
       (Board.init 0 5).get_free_boxes = [] ∧
       (Board.init 0 5).get_legal_moves none = []) :=
  ⟨Or.inl le_rfl, claim_C9_nonpositive_dims_no_fault 0 5 (Or.inl le_rfl)⟩

/-! ## C10 -/

/-- A concrete 2×2 board whose only blocked cell is `(0, 1)` (flat index
`2`), used to exhibit the row-wrapping of `box_blocked`. -/
def wrapBoard : Board :=
  { rows := 2, columns := 2, board := [4, 4, 24, 4], active_player := 1,
    inactive_player := 2, pos1 := none, pos2 := none }

/-- C10: `box_blocked` validates nothing about its coordinates — for every
board, the out-of-range column `x = columns` at row `y` reads the flat
index `columns + y*columns = 0 + (y+1)*columns`, i.e. the blocked-status of
the row-wrapped cell `(0, y+1)`; on `wrapBoard` (where the flat index `2`
is inside the 4-cell list) this makes the out-of-grid query
`box_blocked columns 0` return `true`, the status of the different cell
`(0, 1)`, rather than failing. -/
theorem claim_C10_box_blocked_row_wrap :
    (∀ (b : Board) (y : Int),
        b.box_blocked b.columns y = b.box_blocked 0 (y + 1)) ∧
      wrapBoard.box_blocked wrapBoard.columns 0 = true ∧
      wrapBoard.box_blocked 0 1 = true ∧
      wrapBoard.columns = 2 ∧ wrapBoard.board.length = 4 := by
  refine ⟨fun b y => ?_, by decide, by decide, by decide, by decide⟩
  have : b.offset b.columns y = b.offset 0 (y + 1) := by
    simp [Board.offset]; ring
  simp [Board.box_blocked, this]

/-! ## C3 -/

/-- A reachable board on which C3 fails as stated: a 1×10001 grid after the
two opening placements `(0,0)` (player 1) and `(10000,0)` (player 2). -/
def longBoard : Board :=
  ((Board.init 1 10001).make_move 0 0).make_move 10000 0

/-- Counterexample to C3 as stated: quantified over *every* board, the
bound fails — on the reachable 1×10001 board `longBoard`, with both players
positioned and the winner argument false (`0`), `score_func3` (pure integer
arithmetic, no rounding involved) returns the players' Manhattan distance
`10000 = MAX_SCORE`, which is not strictly smaller in magnitude than
`MAX_SCORE`. -/
theorem claim_C3_counterexample :
    longBoard.pos1 = some (0, 0) ∧ longBoard.pos2 = some (10000, 0) ∧
      AI.score_func3 longBoard 0 1 = AI.MAX_SCORE ∧
      ¬ |AI.score_func3 longBoard 0 1| < AI.MAX_SCORE := by
  refine ⟨rfl, rfl, rfl, by decide⟩

/-- The coordinate `xy` lies inside board `b`'s grid. -/
def in_grid (b : Board) (xy : Int × Int) : Prop :=
  0 ≤ xy.1 ∧ xy.1 < b.columns ∧ 0 ≤ xy.2 ∧ xy.2 < b.rows

instance (b : Board) (xy : Int × Int) : Decidable (in_grid b xy) :=
  inferInstanceAs (Decidable (_ ∧ _ ∧ _ ∧ _))

/-- Every ray cell is inside the grid and of the form
`(x + k·dx, y + k·dy)` for some step count `k ≥ 1`. -/
theorem ray_mem (b : Board) :
    ∀ (fuel : Nat) (x y dx dy : Int), ∀ m ∈ b.ray x y dx dy fuel,
      in_grid b m ∧
        ∃ k : Nat, 1 ≤ k ∧ m.1 = x + (k : Int) * dx ∧ m.2 = y + (k : Int) * dy := by
  intro fuel
  induction fuel with
  | zero => intro x y dx dy m hm; simp [Board.ray] at hm
  | succ n ih =>
    intro x y dx dy m hm
    simp only [Board.ray] at hm
    split at hm
    case isTrue hbnd =>
      split at hm
      · simp at hm
      · rcases List.mem_cons.mp hm with rfl | h
        · exact ⟨⟨hbnd.1, hbnd.2.1, hbnd.2.2.1, hbnd.2.2.2⟩, 1, le_refl 1,
            by simp, by simp⟩
        · obtain ⟨hg, k, hk, h1, h2⟩ := ih _ _ _ _ m h
          refine ⟨hg, k + 1, by omega, ?_, ?_⟩
          · rw [h1]; push_cast; ring
          · rw [h2]; push_cast; ring
    case isFalse => simp at hm

/-- A ray in a nonzero direction visits pairwise distinct cells. -/
theorem ray_nodup (b : Board) :
    ∀ (fuel : Nat) (x y dx dy : Int), ¬(dx = 0 ∧ dy = 0) →
      (b.ray x y dx dy fuel).Nodup := by
  intro fuel
  induction fuel with
  | zero => intro x y dx dy hd; simp [Board.ray]
  | succ n ih =>
    intro x y dx dy hd
    simp only [Board.ray]
    split
    · split
      · simp
      · refine List.nodup_cons.mpr ⟨fun hmem => ?_, ih _ _ dx dy hd⟩
        obtain ⟨-, k, hk, h1, h2⟩ := ray_mem b n _ _ dx dy _ hmem
        simp only at h1 h2
        have hdx : dx = 0 := by
          have hz : (k : Int) * dx = 0 := by linarith
          rcases mul_eq_zero.mp hz with h | h
          · exact absurd h (by exact_mod_cast by omega)
          · exact h
        have hdy : dy = 0 := by
          have hz : (k : Int) * dy = 0 := by linarith
          rcases mul_eq_zero.mp hz with h | h
          · exact absurd h (by exact_mod_cast by omega)
          · exact h
        exact hd ⟨hdx, hdy⟩
    · simp

/-- Rays cast in two different compass directions from the same origin are
disjoint: a common cell would force the two direction vectors equal. -/
theorem rays_disjoint (b : Board) (fuel : Nat) (x y : Int) (d d' : Int × Int)
    (hd : d ∈ Board.dirs_deltas) (hd' : d' ∈ Board.dirs_deltas) (hne : d ≠ d')
    (m : Int × Int) (h1 : m ∈ b.ray x y d.1 d.2 fuel)
    (h2 : m ∈ b.ray x y d'.1 d'.2 fuel) : False := by
  obtain ⟨-, k, hk, hx1, hy1⟩ := ray_mem b fuel x y d.1 d.2 m h1
  obtain ⟨-, k', hk', hx2, hy2⟩ := ray_mem b fuel x y d'.1 d'.2 m h2
  have ex : (k : Int) * d.1 = (k' : Int) * d'.1 := by linarith
  have ey : (k : Int) * d.2 = (k' : Int) * d'.2 := by linarith
  clear hx1 hy1 hx2 hy2 h1 h2
  fin_cases hd <;> fin_cases hd' <;>
    first
      | exact hne rfl
      | (simp only [] at ex ey; omega)

/-- A `flatMap` whose pieces are uniformly bounded in length. -/
theorem flatMap_length_le {α β : Type} (l : List α) (f : α → List β) (n : Nat)
    (h : ∀ a ∈ l, (f a).length ≤ n) : (l.flatMap f).length ≤ l.length * n := by
  induction l with
  | nil => simp
  | cons a t ih =>
    simp only [List.flatMap_cons, List.length_append, List.length_cons]
    have ha := h a (List.mem_cons_self a t)
    have ht := ih fun x hx => h x (List.mem_cons_of_mem _ hx)
    calc (f a).length + (t.flatMap f).length ≤ n + t.length * n := by omega
      _ = (t.length + 1) * n := by ring

/-- The placement branch emits at most one move per grid cell. -/
theorem free_boxes_length_le (b : Board) :
    b.get_free_boxes.length ≤ b.columns.toNat * b.rows.toNat := by
  have h := flatMap_length_le (List.range b.rows.toNat)
    (fun (y : Nat) => (List.range b.columns.toNat).filterMap fun (x : Nat) =>
      if b.box_blocked (x : Int) (y : Int) then none else some ((x : Int), (y : Int)))
    b.columns.toNat
    (fun a _ => by
      have h1 := List.length_filterMap_le
        (fun (x : Nat) =>
          if b.box_blocked (x : Int) (a : Int) then none else some ((x : Int), (a : Int)))
        (List.range b.columns.toNat)
      simpa using h1)
  simpa [Board.get_free_boxes, Nat.mul_comm] using h

/-- The ray branch emits pairwise distinct in-grid cells, hence at most one
move per grid cell. -/
theorem ray_branch_length_le (b : Board) (x y : Int) :
    (Board.dirs_deltas.flatMap fun d => b.ray x y d.1 d.2 b.fuel).length
      ≤ b.columns.toNat * b.rows.toNat := by
  have hnd : (Board.dirs_deltas.flatMap fun d => b.ray x y d.1 d.2 b.fuel).Nodup := by
    rw [List.nodup_flatMap]
    constructor
    · intro d hd
      refine ray_nodup b b.fuel x y d.1 d.2 ?_
      fin_cases hd <;> simp
    · refine List.Nodup.pairwise_of_forall_ne (by decide) ?_
      intro d hd d' hd' hne
      intro m hm hm'
      exact rays_disjoint b b.fuel x y d d' hd hd' hne m hm hm'
  have hsub : (Board.dirs_deltas.flatMap fun d => b.ray x y d.1 d.2 b.fuel).toFinset
      ⊆ Finset.Ico (0 : Int) b.columns ×ˢ Finset.Ico (0 : Int) b.rows := by
    intro m hm
    rw [List.mem_toFinset] at hm
    obtain ⟨d, -, hmem⟩ := List.mem_flatMap.mp hm
    obtain ⟨hg, -⟩ := ray_mem b b.fuel x y d.1 d.2 m hmem
    simp only [Finset.mem_product, Finset.mem_Ico]
    exact ⟨⟨hg.1, hg.2.1⟩, hg.2.2.1, hg.2.2.2⟩
  calc (Board.dirs_deltas.flatMap fun d => b.ray x y d.1 d.2 b.fuel).length
      = (Board.dirs_deltas.flatMap fun d => b.ray x y d.1 d.2 b.fuel).toFinset.card :=
        (List.toFinset_card_of_nodup hnd).symm
    _ ≤ (Finset.Ico (0 : Int) b.columns ×ˢ Finset.Ico (0 : Int) b.rows).card :=
        Finset.card_le_card hsub
    _ = b.columns.toNat * b.rows.toNat := by
        simp [Finset.card_product, Int.card_Ico]


/-- A legal-move list never exceeds the number of grid cells. -/
theorem legal_moves_length_le (b : Board) (player : Option Nat) :
    (b.get_legal_moves player).length ≤ b.columns.toNat * b.rows.toNat := by
  simp only [Board.get_legal_moves]
  rcases hloc : (match player with
    | none => b.players_position b.active_player
    | some p => b.players_position p) with - | ⟨x, y⟩ <;> rw [hloc]
  · exact free_boxes_length_le b
  · exact ray_branch_length_le b x y

/-- Manhattan distance is nonnegative. -/
theorem manhattan_nonneg (x1 y1 x2 y2 : Int) :
    0 ≤ AI.manhattan_distance x1 y1 x2 y2 :=
  add_nonneg (abs_nonneg _) (abs_nonneg _)

/-- Manhattan distance between two in-grid points is at most `area - 1`. -/
theorem manhattan_le_of_in_grid (b : Board) (p q : Int × Int)
    (hp : in_grid b p) (hq : in_grid b q) :
    AI.manhattan_distance p.1 p.2 q.1 q.2 ≤ b.columns * b.rows - 1 := by
  obtain ⟨hp1, hp2, hp3, hp4⟩ := hp
  obtain ⟨hq1, hq2, hq3, hq4⟩ := hq
  have h1 : |p.1 - q.1| ≤ b.columns - 1 := abs_le.mpr ⟨by omega, by omega⟩
  have h2 : |p.2 - q.2| ≤ b.rows - 1 := abs_le.mpr ⟨by omega, by omega⟩
  have hpos : (0 : Int) ≤ (b.columns - 1) * (b.rows - 1) :=
    mul_nonneg (by omega) (by omega)
  have hexp : (b.columns - 1) * (b.rows - 1)
      = b.columns * b.rows - b.columns - b.rows + 1 := by ring
  unfold AI.manhattan_distance
  linarith

/-- With both players positioned inside the grid, the position-with-default
of any player key is in-grid (the default `(0, 0)` is in-grid because the
grid is nonempty). -/
theorem player_pos_d_in_grid (b : Board) {q1 q2 : Int × Int}
    (h1 : b.pos1 = some q1) (h2 : b.pos2 = some q2)
    (hg1 : in_grid b q1) (hg2 : in_grid b q2) (p : Nat) :
    in_grid b ((b.players_position p).getD (0, 0)) := by
  have hc : 0 < b.columns := by obtain ⟨a1, a2, a3, a4⟩ := hg1; omega
  have hr : 0 < b.rows := by obtain ⟨a1, a2, a3, a4⟩ := hg1; omega
  unfold Board.players_position
  split
  · rw [h1]; simpa using hg1
  · split
    · rw [h2]; simpa using hg2
    · exact ⟨le_refl 0, hc, le_refl 0, hr⟩

/-- Value range of `inv_dist_to_centre` for any rounding model `g` in the
interval `[0, total]`: the result lies in `[0, total + 5]`. -/
theorem inv_dist_bounds (g : Int → Int → Int)
    (hg : ∀ t d : Int, 0 ≤ t → 0 < d → 0 ≤ g t d ∧ g t d ≤ t)
    (b : Board) (p : Nat) (htot : 0 ≤ b.columns * b.rows) :
    0 ≤ AI.inv_dist_to_centre_g g b p ∧
      AI.inv_dist_to_centre_g g b p ≤ b.columns * b.rows + 5 := by
  simp only [AI.inv_dist_to_centre_g]
  split
  · exact ⟨by linarith, le_refl _⟩
  · next h =>
    obtain ⟨hh1, hh2⟩ := hg _ _ htot (not_le.mp h)
    exact ⟨hh1, by linarith⟩

/-- The exact floor-division model of the double expression
`int((1.0 / dist) * total)` lies in `[0, total]` — the same interval the
true double computation is confined to. -/
theorem inv_scaled_bounds :
    ∀ t d : Int, 0 ≤ t → 0 < d → 0 ≤ AI.inv_scaled t d ∧ AI.inv_scaled t d ≤ t := by
  intro t d ht hd
  unfold AI.inv_scaled
  rw [Int.fdiv_eq_ediv t (le_of_lt hd)]
  exact ⟨Int.ediv_nonneg ht (le_of_lt hd), Int.ediv_le_self d ht⟩

/-- C3 amended: the claim's bound fails on large boards (see
`claim_C3_counterexample`); it holds for every board whose area satisfies
`columns * rows + 5 < MAX_SCORE` and whose two recorded positions lie
inside the grid.  Stated for any model `g` of the source's double
expression `int((1.0 / dist) * total)` confined to `[0, total]` — an
interval containing both the exact floor division `inv_scaled` (see
`inv_scaled_bounds`, used by the witness, and note
`score_func1 = score_func1_g inv_scaled`,
`score_func4 = score_func4_g inv_scaled`) and the true double rounding. -/
theorem claim_C3_heuristic_bounds (g : Int → Int → Int)
    (hg : ∀ t d : Int, 0 ≤ t → 0 < d → 0 ≤ g t d ∧ g t d ≤ t)
    (b : Board) (p : Nat) (q1 q2 : Int × Int)
    (h1 : b.pos1 = some q1) (h2 : b.pos2 = some q2)
    (hg1 : in_grid b q1) (hg2 : in_grid b q2)
    (harea : b.columns * b.rows + 5 < AI.MAX_SCORE) :
    |AI.score_func1_g g b 0 p| < AI.MAX_SCORE ∧
    |AI.score_func2 b 0 p| < AI.MAX_SCORE ∧
    |AI.score_func3 b 0 p| < AI.MAX_SCORE ∧
    |AI.score_func4_g g b 0 p| < AI.MAX_SCORE := by
  have hc : 0 < b.columns := by obtain ⟨a1, a2, a3, a4⟩ := hg1; omega
  have hr : 0 < b.rows := by obtain ⟨a1, a2, a3, a4⟩ := hg1; omega
  have htot : 0 ≤ b.columns * b.rows := le_of_lt (mul_pos hc hr)
  have hnz : ¬ ((0 : Nat) ≠ 0) := by omega
  have hcast : ((b.columns.toNat * b.rows.toNat : Nat) : Int) = b.columns * b.rows := by
    rw [Nat.cast_mul, Int.toNat_of_nonneg (le_of_lt hc), Int.toNat_of_nonneg (le_of_lt hr)]
  have hpa := player_pos_d_in_grid b h1 h2 hg1 hg2 b.active_player
  have hpo := player_pos_d_in_grid b h1 h2 hg1 hg2 b.inactive_player
  refine ⟨?_, ?_, ?_, ?_⟩
  · have a1 := inv_dist_bounds g hg b b.active_player htot
    have o1 := inv_dist_bounds g hg b b.inactive_player htot
    simp only [AI.score_func1_g]
    rw [if_neg hnz, abs_lt]
    exact ⟨by linarith [a1.1, a1.2, o1.1, o1.2], by linarith [a1.1, a1.2, o1.1, o1.2]⟩
  · have la : ((b.get_legal_moves (some b.active_player)).length : Int)
        ≤ b.columns * b.rows := by
      rw [← hcast]
      exact_mod_cast legal_moves_length_le b (some b.active_player)
    have lo : ((b.get_legal_moves (some b.inactive_player)).length : Int)
        ≤ b.columns * b.rows := by
      rw [← hcast]
      exact_mod_cast legal_moves_length_le b (some b.inactive_player)
    have la0 : (0 : Int) ≤ (b.get_legal_moves (some b.active_player)).length :=
      Nat.cast_nonneg _
    have lo0 : (0 : Int) ≤ (b.get_legal_moves (some b.inactive_player)).length :=
      Nat.cast_nonneg _
    simp only [AI.score_func2]
    rw [if_neg hnz, abs_lt]
    exact ⟨by linarith, by linarith⟩
  · have hman := manhattan_le_of_in_grid b _ _ hpa hpo
    have hman0 := manhattan_nonneg
      ((b.players_position b.active_player).getD (0, 0)).1
      ((b.players_position b.active_player).getD (0, 0)).2
      ((b.players_position b.inactive_player).getD (0, 0)).1
      ((b.players_position b.inactive_player).getD (0, 0)).2
    simp only [AI.score_func3]
    rw [if_neg hnz, abs_lt]
    exact ⟨by linarith, by linarith⟩
  · simp only [AI.score_func4_g]
    rw [if_neg hnz]
    split
    · rw [abs_lt]; exact ⟨by linarith, by linarith⟩
    · next h =>
      obtain ⟨u1, u2⟩ := hg _ _ htot (not_le.mp h)
      rw [abs_lt]
      exact ⟨by linarith, by linarith⟩

/-- Witness board for C3: a 3×3 game after the opening placements `(1,1)`
and `(0,0)`. -/
def w3Board : Board :=
  ((Board.init 3 3).make_move 1 1).make_move 0 0

/-- Witness for C3's amended theorem at `w3Board` with the source's concrete
heuristics (`g := inv_scaled`, whose interval bound is
`inv_scaled_bounds`). -/
theorem claim_C3_witness :
    w3Board.pos1 = some (1, 1) ∧ w3Board.pos2 = some (0, 0) ∧
    in_grid w3Board (1, 1) ∧ in_grid w3Board (0, 0) ∧
    w3Board.columns * w3Board.rows + 5 < AI.MAX_SCORE ∧
    (|AI.score_func1 w3Board 0 1| < AI.MAX_SCORE ∧
     |AI.score_func2 w3Board 0 1| < AI.MAX_SCORE ∧
     |AI.score_func3 w3Board 0 1| < AI.MAX_SCORE ∧
     |AI.score_func4 w3Board 0 1| < AI.MAX_SCORE) :=
  ⟨rfl, rfl, by decide, by decide, by decide,
    claim_C3_heuristic_bounds AI.inv_scaled inv_scaled_bounds w3Board 1 (1, 1) (0, 0)
      rfl rfl (by decide) (by decide) (by decide)⟩

/-! ## C2 -/

/-- The instrumented loop computes the same score and move as the plain
alpha-beta loop whenever the two child evaluators agree on scores. -/
theorem ab_loopI_fst_snd (evalI : Board → Int → Int → Int × Bool)
    (eval : Board → Int → Int → Int)
    (H : ∀ b a bt, (evalI b a bt).1 = eval b a bt) (board : Board) :
    ∀ (ms : List (Int × Int)) (alpha beta : Int)
      (best : Int × Option (Int × Int)) (cut : Bool),
      ((AI.ab_loopI evalI board ms alpha beta best cut).1,
       (AI.ab_loopI evalI board ms alpha beta best cut).2.1)
        = AI.ab_loop eval board ms alpha beta best := by
  intro ms
  induction ms with
  | nil => intro alpha beta best cut; rfl
  | cons m t ih =>
    intro alpha beta best cut
    simp only [AI.ab_loopI, AI.ab_loop, H]
    split
    · rfl
    · exact ih _ _ _ _

/-- The instrumented search computes the same `(score, move)` pair as
`abnegamax` on all inputs. -/
theorem abnegamaxI_fst_snd :
    ∀ (depth : Nat) (board : Board) (player : Nat) (alpha beta : Int) (f : ScoreFn),
      ((AI.abnegamaxI board depth player alpha beta f).1,
       (AI.abnegamaxI board depth player alpha beta f).2.1)
        = AI.abnegamax board depth player alpha beta f := by
  intro depth
  induction depth with
  | zero =>
    intro board player alpha beta f
    rw [AI.abnegamaxI.eq_def, AI.abnegamax.eq_def]
    simp
  | succ d ih =>
    intro board player alpha beta f
    rw [AI.abnegamaxI.eq_def, AI.abnegamax.eq_def]
    by_cases hw : board.is_game_over ≠ 0 ∨ d + 1 = 0
    · rw [if_pos hw, if_pos hw]
    · rw [if_neg hw, if_neg hw]
      rcases hmv : board.get_legal_moves none with - | ⟨m, ms⟩
      · rfl
      · simp only []
        have hchild := ih (board.make_move_copy m.1 m.2) player (-beta) (-alpha) f
        have hscore : (AI.abnegamaxI (board.make_move_copy m.1 m.2) d player
            (-beta) (-alpha) f).1
            = (AI.abnegamax (board.make_move_copy m.1 m.2) d player
                (-beta) (-alpha) f).1 := congrArg Prod.fst hchild
        rw [hscore]
        split
        · rfl
        · exact ab_loopI_fst_snd
            (fun b al bt => ((AI.abnegamaxI b d player al bt f).1,
              (AI.abnegamaxI b d player al bt f).2.2))
            (fun b al bt => (AI.abnegamax b d player al bt f).1)
            (fun b a bt => congrArg Prod.fst (ih b player a bt f)) board ms _ _ _ _

/-- Once the cutoff flag is set it stays set. -/
theorem ab_loopI_true (evalI : Board → Int → Int → Int × Bool) (board : Board) :
    ∀ (ms : List (Int × Int)) (alpha beta : Int) (best : Int × Option (Int × Int)),
      (AI.ab_loopI evalI board ms alpha beta best true).2.2 = true := by
  intro ms
  induction ms with
  | nil => intro alpha beta best; rfl
  | cons m t ih =>
    intro alpha beta best
    simp only [AI.ab_loopI]
    split
    · rfl
    · simpa using ih _ _ _

/-- If the instrumented loop finishes with cutoff flag `false`, its
incoming flag was `false`, no `break` was taken, every explored child
reported `false`, and the loop's `(score, move)` pair coincides with the
plain (window-free) negamax-style fold whenever flag-`false` children score
like `nval`. -/
theorem ab_loopI_no_cut (evalI : Board → Int → Int → Int × Bool)
    (nval : Board → Int)
    (H : ∀ b a bt, (evalI b a bt).2 = false → (evalI b a bt).1 = nval b)
    (board : Board) :
    ∀ (ms : List (Int × Int)) (alpha beta : Int)
      (best : Int × Option (Int × Int)) (cut : Bool),
      (AI.ab_loopI evalI board ms alpha beta best cut).2.2 = false →
      ((AI.ab_loopI evalI board ms alpha beta best cut).1,
       (AI.ab_loopI evalI board ms alpha beta best cut).2.1)
        = ms.foldl (fun bst move =>
            let current_score := -(nval (board.make_move_copy move.1 move.2))
            if current_score > bst.1 then (current_score, some move) else bst) best := by
  intro ms
  induction ms with
  | nil => intro alpha beta best cut hfl; rfl
  | cons m t ih =>
    intro alpha beta best cut hfl
    simp only [AI.ab_loopI] at hfl ⊢
    split at hfl
    · simp at hfl
    · next hcond =>
      rw [if_neg hcond]
      have hacc : (cut || (evalI (board.make_move_copy m.1 m.2) (-beta) (-alpha)).2)
          = false := by
        by_contra hne
        rw [Bool.not_eq_false] at hne
        rw [hne, ab_loopI_true] at hfl
        exact absurd hfl (by simp)
      have hch : (evalI (board.make_move_copy m.1 m.2) (-beta) (-alpha)).2 = false :=
        (Bool.or_eq_false_iff.mp hacc).2
      have heval := H (board.make_move_copy m.1 m.2) (-beta) (-alpha) hch
      simp only [List.foldl_cons]
      rw [← heval]
      exact ih _ _ _ _ hfl

/-- A flag-`false` instrumented search (no cutoff triggered anywhere in the
explored tree) computes exactly the plain negamax `(score, move)` pair. -/
theorem abnegamaxI_no_cut :
    ∀ (depth : Nat) (board : Board) (player : Nat) (alpha beta : Int) (f : ScoreFn),
      (AI.abnegamaxI board depth player alpha beta f).2.2 = false →
      ((AI.abnegamaxI board depth player alpha beta f).1,
       (AI.abnegamaxI board depth player alpha beta f).2.1)
        = AI.negamax board depth player f := by
  intro depth
  induction depth with
  | zero =>
    intro board player alpha beta f hfl
    rw [AI.abnegamaxI.eq_def, AI.negamax.eq_def]
    simp
  | succ d ih =>
    intro board player alpha beta f hfl
    rw [AI.abnegamaxI.eq_def] at hfl
    rw [AI.abnegamaxI.eq_def, AI.negamax.eq_def]
    by_cases hw : board.is_game_over ≠ 0 ∨ d + 1 = 0
    · rw [if_pos hw, if_pos hw]
    · rw [if_neg hw] at hfl
      rw [if_neg hw, if_neg hw]
      rcases hmv : board.get_legal_moves none with - | ⟨m, ms⟩
      · rfl
      · rw [hmv] at hfl
        simp only [] at hfl ⊢
        split at hfl
        · simp at hfl
        · next hcond =>
          have hr2 : (AI.abnegamaxI (board.make_move_copy m.1 m.2) d player
              (-beta) (-alpha) f).2.2 = false := by
            by_contra hne
            rw [Bool.not_eq_false] at hne
            rw [hne, ab_loopI_true] at hfl
            exact absurd hfl (by simp)
          have hscore : (AI.abnegamaxI (board.make_move_copy m.1 m.2) d player
              (-beta) (-alpha) f).1
              = (AI.negamax (board.make_move_copy m.1 m.2) d player f).1 :=
            congrArg Prod.fst (ih (board.make_move_copy m.1 m.2) player
              (-beta) (-alpha) f hr2)
          rw [if_neg hcond]
          rw [← hscore]
          exact ab_loopI_no_cut
            (fun b al bt => ((AI.abnegamaxI b d player al bt f).1,
              (AI.abnegamaxI b d player al bt f).2.2))
            (fun b => (AI.negamax b d player f).1)
            (fun b a bt hfb => congrArg Prod.fst (ih b player a bt f hfb))
            board ms _ _ _ _ hfl

/-- C2: whenever the zero-pruning instrumentation reports that no
alpha-beta cutoff (`alpha ≥ beta`) triggered anywhere in the explored
search tree, `abnegamax` returns exactly the same `(score, move)` pair as
plain `negamax` on the same board, depth, player and heuristic (for any
window, in particular arbitrarily wide ones). -/
theorem claim_C2_abnegamax_eq_negamax (board : Board) (depth : Nat) (player : Nat)
    (alpha beta : Int) (f : ScoreFn)
    (h : (AI.abnegamaxI board depth player alpha beta f).2.2 = false) :
    AI.abnegamax board depth player alpha beta f = AI.negamax board depth player f :=
  (abnegamaxI_fst_snd depth board player alpha beta f).symm.trans
    (abnegamaxI_no_cut depth board player alpha beta f h)

/-- Witness for C2: depth-1 search of the fresh 2×2 board with the flee
heuristic and a wide window; the instrumentation reports no cutoff. -/
theorem claim_C2_witness :
    (AI.abnegamaxI (Board.init 2 2) 1 1 (-1000000) 1000000 AI.score_func3).2.2
        = false ∧
      AI.abnegamax (Board.init 2 2) 1 1 (-1000000) 1000000 AI.score_func3
        = AI.negamax (Board.init 2 2) 1 1 AI.score_func3 :=
  ⟨by decide,
    claim_C2_abnegamax_eq_negamax (Board.init 2 2) 1 1 (-1000000) 1000000
      AI.score_func3 (by decide)⟩

/-- C4: whenever the winner argument is a player identifier, each of the
four heuristics returns exactly `+MAX_SCORE` when the winner equals the
scored player and exactly `-MAX_SCORE` when it is the other player,
whatever the board contents; the heuristics take no depth argument, so the
terminal score is independent of any search depth by construction. -/
theorem claim_C4_terminal_scores (b : Board) (w p : Nat)
    (hw : w = Board.PLAYER1 ∨ w = Board.PLAYER2)
    (hp : p = Board.PLAYER1 ∨ p = Board.PLAYER2) :
    (w = p →
      AI.score_func1 b w p = AI.MAX_SCORE ∧
      AI.score_func2 b w p = AI.MAX_SCORE ∧
      AI.score_func3 b w p = AI.MAX_SCORE ∧
      AI.score_func4 b w p = AI.MAX_SCORE) ∧
    (w ≠ p →
      AI.score_func1 b w p = -AI.MAX_SCORE ∧
      AI.score_func2 b w p = -AI.MAX_SCORE ∧
      AI.score_func3 b w p = -AI.MAX_SCORE ∧
      AI.score_func4 b w p = -AI.MAX_SCORE) := by
  have hw0 : w ≠ 0 := by
    rcases hw with rfl | rfl <;> simp [Board.PLAYER1, Board.PLAYER2]
  constructor
  · intro he
    subst he
    simp [AI.score_func1, AI.score_func1_g, AI.score_func2, AI.score_func3,
      AI.score_func4, AI.score_func4_g, hw0]
  · intro hne
    simp [AI.score_func1, AI.score_func1_g, AI.score_func2, AI.score_func3,
      AI.score_func4, AI.score_func4_g, hw0, hne]

/-- Witness for C4 at a concrete board with winner `1` and player `2`. -/
theorem claim_C4_witness :
    ((1 : Nat) = Board.PLAYER1 ∨ (1 : Nat) = Board.PLAYER2) ∧
    ((2 : Nat) = Board.PLAYER1 ∨ (2 : Nat) = Board.PLAYER2) ∧
    (((1 : Nat) = 2 →
      AI.score_func1 (Board.init 2 2) 1 2 = AI.MAX_SCORE ∧
      AI.score_func2 (Board.init 2 2) 1 2 = AI.MAX_SCORE ∧
      AI.score_func3 (Board.init 2 2) 1 2 = AI.MAX_SCORE ∧
      AI.score_func4 (Board.init 2 2) 1 2 = AI.MAX_SCORE) ∧
    ((1 : Nat) ≠ 2 →
      AI.score_func1 (Board.init 2 2) 1 2 = -AI.MAX_SCORE ∧
      AI.score_func2 (Board.init 2 2) 1 2 = -AI.MAX_SCORE ∧
      AI.score_func3 (Board.init 2 2) 1 2 = -AI.MAX_SCORE ∧
      AI.score_func4 (Board.init 2 2) 1 2 = -AI.MAX_SCORE)) :=
  ⟨Or.inl rfl, Or.inr rfl,
    claim_C4_terminal_scores (Board.init 2 2) 1 2 (Or.inl rfl) (Or.inr rfl)⟩

/-! ## C8 -/

/-- C8: on a game-over board or at depth zero, `negamax` returns
`(sign * score_func(board, winner, player), none)` where `sign` is `+1`
exactly when the board's active player is the scored player and `winner` is
the `is_game_over` result. -/
theorem claim_C8_negamax_terminal (b : Board) (depth : Nat) (p : Nat)
    (f : ScoreFn) (h : b.is_game_over ≠ 0 ∨ depth = 0) :
    AI.negamax b depth p f
      = ((if b.active_player = p then (1 : Int) else -1)
          * f b b.is_game_over p, none) := by
  rw [AI.negamax.eq_def]
  exact if_pos h

/-- Witness for C8: depth `0` on a fresh 2×2 board with the mobility
heuristic. -/
theorem claim_C8_witness :
    ((Board.init 2 2).is_game_over ≠ 0 ∨ 0 = 0) ∧
      AI.negamax (Board.init 2 2) 0 1 AI.score_func2
        = ((if (Board.init 2 2).active_player = 1 then (1 : Int) else -1)
            * AI.score_func2 (Board.init 2 2) (Board.init 2 2).is_game_over 1,
           none) :=
  ⟨Or.inr rfl, claim_C8_negamax_terminal (Board.init 2 2) 0 1 AI.score_func2 (Or.inr rfl)⟩

